import Mathlib

/-!
Verification of the fractal computation and color-mapping engine of the FFPGA
repository (src/C-FFPGAv2/ffpga.c, with one legacy variant from
src/C-FFPGA/ffpga.c).  C doubles are modelled as real numbers; C int values
are modelled as natural numbers (or integers where the source can go
negative).  Each definition mirrors one function of the source.
-/

open scoped Classical

namespace FFPGA

/-- Embedding of the macro ESCAPE_RADIUS (ffpga.c line 48). -/
noncomputable def ESCAPE_RADIUS : ℝ := 2.0

/-- Embedding of the macro ESCAPE_RADIUS_SQ (ffpga.c line 49). -/
noncomputable def ESCAPE_RADIUS_SQ : ℝ := 4.0

/-- Embedding of the macro BAILOUT_TEST (ffpga.c line 51), the bailout value
used by the main iteration loop. -/
noncomputable def BAILOUT_TEST : ℝ := 256.0

/-- Embedding of the macro SERIES_TERMS (ffpga.c line 54). -/
def SERIES_TERMS : ℕ := 8

/-- Embedding of the macro MIN_SERIES_ITER (ffpga.c line 55). -/
def MIN_SERIES_ITER : ℕ := 10

/-- Embedding of quick_mandelbrot_check (ffpga.c lines 101-119): closed-form
main-cardioid and period-2-bulb membership tests. -/
noncomputable def quick_mandelbrot_check (cr ci : ℝ) : Prop :=
  let x_quarter := cr - 0.25
  let q := x_quarter * x_quarter + ci * ci
  q * (q + x_quarter) < 0.25 * ci * ci ∨
    (cr + 1.0) * (cr + 1.0) + ci * ci < 0.0625

/-- One Mandelbrot iteration z ← z² + c on explicit real components, exactly
as computed (via cached squares) in the loops of ffpga.c. -/
noncomputable def stepZ (cr ci : ℝ) (z : ℝ × ℝ) : ℝ × ℝ :=
  (z.1 * z.1 - z.2 * z.2 + cr, 2 * z.1 * z.2 + ci)

/-- The n-th iterate of z ← z² + c starting from z = 0. -/
noncomputable def mandelZ (cr ci : ℝ) (n : ℕ) : ℝ × ℝ :=
  (stepZ cr ci)^[n] (0, 0)

/-- Seed loop of series_approximation (ffpga.c lines 131-149): propagates the
derivative dz/dc alongside z for the given number of passes; returns none as
soon as the escape check (on the pre-update z) fires, mirroring the early
return of -1 in the source. -/
noncomputable def seriesSeed (cr ci : ℝ) : ℕ → ℝ × ℝ → ℝ × ℝ → Option ((ℝ × ℝ) × (ℝ × ℝ))
  | 0, z, dz => some (z, dz)
  | n + 1, z, dz =>
      let new_dz : ℝ × ℝ :=
        (2 * (z.1 * dz.1 - z.2 * dz.2) + 1, 2 * (z.1 * dz.2 + z.2 * dz.1))
      let z_real_sq := z.1 * z.1
      let z_imag_sq := z.2 * z.2
      let new_z : ℝ × ℝ := (z_real_sq - z_imag_sq + cr, 2 * z.1 * z.2 + ci)
      if z_real_sq + z_imag_sq > ESCAPE_RADIUS_SQ then none
      else seriesSeed cr ci n new_z new_dz

/-- Embedding of series_approximation (ffpga.c lines 124-163).  The C sentinel
-1 is modelled as none; a returned estimate is modelled as some. -/
noncomputable def series_approximation (cr ci : ℝ) (max_iter : ℕ) : Option ℝ :=
  if max_iter < MIN_SERIES_ITER then none
  else
    match seriesSeed cr ci (min SERIES_TERMS (max_iter / 4)) (0, 0) (1, 0) with
    | none => none
    | some (z, dz) =>
        let dz_magnitude := Real.sqrt (dz.1 * dz.1 + dz.2 * dz.2)
        if dz_magnitude > 1e-10 then
          let z_magnitude := Real.sqrt (z.1 * z.1 + z.2 * z.2)
          let estimated_escape :=
            Real.log (ESCAPE_RADIUS / z_magnitude) / Real.log dz_magnitude
          if estimated_escape > 0 ∧
              estimated_escape < (max_iter : ℝ) - (SERIES_TERMS : ℝ) then
            some ((SERIES_TERMS : ℝ) + estimated_escape)
          else none
        else none

/-- Main iteration loop of calculate_mandelbrot_optimized (ffpga.c lines
240-257).  The C loop runs while iter < max_iter; here fuel = max_iter - iter.
The escape check uses the squares of the pre-update z and the loop stops
before updating z, exactly as the break in the source. -/
noncomputable def mandelLoop (cr ci : ℝ) : ℕ → ℝ → ℝ → ℕ → ℝ × ℝ × ℕ
  | 0, zr, zi, iter => (zr, zi, iter)
  | fuel + 1, zr, zi, iter =>
      let zr_sq := zr * zr
      let zi_sq := zi * zi
      if zr_sq + zi_sq > BAILOUT_TEST then (zr, zi, iter)
      else mandelLoop cr ci fuel (zr_sq - zi_sq + cr) (2 * zr * zi + ci) (iter + 1)

/-- Final state of the main loop started from z = 0 with iter = 0. -/
noncomputable def mandelFinal (cr ci : ℝ) (max_iter : ℕ) : ℝ × ℝ × ℕ :=
  mandelLoop cr ci max_iter 0 0 0

/-- The iteration counter the main loop ends with. -/
noncomputable def mandelIterCount (cr ci : ℝ) (max_iter : ℕ) : ℕ :=
  (mandelFinal cr ci max_iter).2.2

/-- The full escape-time iteration detects escape within max_iter iterations:
the loop broke out with iter < max_iter. -/
noncomputable def mandelEscapes (cr ci : ℝ) (max_iter : ℕ) : Prop :=
  mandelIterCount cr ci max_iter < max_iter

/-- Lower half of calculate_mandelbrot_optimized (ffpga.c lines 235-267): the
full iteration followed by the smooth-coloring computation, with the
non-negativity clamp of line 264. -/
noncomputable def escapeTimeSmooth (cr ci : ℝ) (max_iter : ℕ) : ℝ :=
  let r := mandelFinal cr ci max_iter
  if r.2.2 < max_iter then
    let final_magnitude_sq := r.1 * r.1 + r.2.1 * r.2.1
    let smooth_iter :=
      (r.2.2 : ℝ) + 1.0 - Real.logb 2 (0.5 * Real.log final_magnitude_sq)
    if smooth_iter > 0 then smooth_iter else 0
  else (max_iter : ℝ)

/-- Embedding of calculate_mandelbrot_optimized (ffpga.c lines 216-268).  The
stats pointer of the source only increments counters and never influences the
returned value, so it is omitted. -/
noncomputable def calculate_mandelbrot_optimized (cr ci : ℝ) (max_iter : ℕ) : ℝ :=
  if quick_mandelbrot_check cr ci then (max_iter : ℝ)
  else if MIN_SERIES_ITER ≤ max_iter then
    match series_approximation cr ci max_iter with
    | some series_result =>
        if series_result > 0 then series_result
        else escapeTimeSmooth cr ci max_iter
    | none => escapeTimeSmooth cr ci max_iter
  else escapeTimeSmooth cr ci max_iter

/-- Truncation toward zero, the semantics of the C cast (int)x applied to a
double, used for histogram buckets. -/
noncomputable def truncInt (x : ℝ) : ℤ :=
  if 0 ≤ x then ⌊x⌋ else -⌊-x⌋

/-- Embedding of the Histogram struct (ffpga.c lines 84-88).  The C int array
of max_iter buckets is modelled as a total function on ℤ so that the
out-of-range accesses the source would perform on negative buckets stay
expressible. -/
structure Histogram where
  counts : ℤ → ℕ
  total_pixels : ℕ
  max_count : ℕ

/-- Body of the per-pixel loop of build_histogram (ffpga.c lines 423-432). -/
noncomputable def histStep (max_iter : ℕ) (h : Histogram) (x : ℝ) : Histogram :=
  let iter_bucket := truncInt x
  if iter_bucket < (max_iter : ℤ) then
    let counts := Function.update h.counts iter_bucket (h.counts iter_bucket + 1)
    { counts := counts
      total_pixels := h.total_pixels + 1
      max_count := max h.max_count (counts iter_bucket) }
  else h

/-- Embedding of build_histogram (ffpga.c lines 408-435), for the case where
both allocations succeed (allocation failure is modelled at the call site in
generate_mandelbrot). -/
noncomputable def build_histogram (data : List ℝ) (max_iter : ℕ) : Histogram :=
  data.foldl (histStep max_iter)
    { counts := fun _ => 0, total_pixels := 0, max_count := 0 }

/-- Embedding of the Color struct (ffpga.c lines 60-62): an RGB triple of
byte values. -/
structure Color where
  r : ℕ
  g : ℕ
  b : ℕ
deriving DecidableEq

/-- Conversion of a double to unsigned char as used on ffpga.c lines 307-309
and 339-341: truncation toward zero, reduced to byte range.  All source call
sites pass values in byte range, where this is exactly the C cast. -/
noncomputable def toByte (x : ℝ) : ℕ :=
  (truncInt x).toNat % 256

/-- Embedding of map_iteration_to_color_histogram (ffpga.c lines 272-312).
The source's null-histogram guard lives at the call site here (the caller
passes the histogram only when it was built). -/
noncomputable def map_iteration_to_color_histogram
    (smooth_iter : ℝ) (max_iter : ℕ) (histogram : Histogram) : Color :=
  if smooth_iter ≥ (max_iter : ℝ) then ⟨0, 0, 0⟩
  else
    let bucket := truncInt smooth_iter
    let iter_bucket := if bucket ≥ (max_iter : ℤ) then (max_iter : ℤ) - 1 else bucket
    let accumulated_count :=
      (Finset.range max_iter).sum fun i =>
        if (i : ℤ) ≤ iter_bucket then histogram.counts (i : ℤ) else 0
    let normalized_pos := (accumulated_count : ℝ) / (histogram.total_pixels : ℝ)
    let phase1 := normalized_pos * 8.0 * Real.pi
    let phase2 := normalized_pos * 16.0 * Real.pi
    let phase3 := normalized_pos * 32.0 * Real.pi
    let r_component :=
      0.5 * (1.0 + 0.8 * Real.cos phase1 + 0.3 * Real.cos phase2)
    let g_component :=
      0.5 * (1.0 + 0.8 * Real.cos (phase1 + 2.0 * Real.pi / 3.0) + 0.3 * Real.sin phase2)
    let b_component :=
      0.5 * (1.0 + 0.8 * Real.cos (phase1 + 4.0 * Real.pi / 3.0) + 0.3 * Real.cos phase3)
    let brightness := 0.3 + 0.7 * normalized_pos ^ (0.8 : ℝ)
    ⟨toByte (255.0 * min 1.0 (r_component * brightness)),
      toByte (255.0 * min 1.0 (g_component * brightness)),
      toByte (255.0 * min 1.0 (b_component * brightness))⟩

/-- Embedding of map_iteration_to_color_standard (ffpga.c lines 316-344). -/
noncomputable def map_iteration_to_color_standard
    (smooth_iter : ℝ) (max_iter : ℕ) : Color :=
  if smooth_iter ≥ (max_iter : ℝ) then ⟨0, 0, 0⟩
  else
    let t := smooth_iter / (max_iter : ℝ)
    let phase := t * 4.0 * 2.0 * Real.pi
    let r_component := 0.5 * (1.0 + Real.cos phase)
    let g_component := 0.5 * (1.0 + Real.cos (phase + 2.0 * Real.pi / 3.0))
    let b_component := 0.5 * (1.0 + Real.cos (phase + 4.0 * Real.pi / 3.0))
    let brightness := (1.0 - t) ^ (0.4 : ℝ)
    ⟨toByte (255.0 * (r_component * brightness)),
      toByte (255.0 * (g_component * brightness)),
      toByte (255.0 * (b_component * brightness))⟩

/-- Embedding of the fields of MandelbrotParams (ffpga.c lines 70-81) consumed
by the render pipeline (output filename and thread count do not influence the
computed buffers). -/
structure MandelbrotParams where
  width : ℕ
  height : ℕ
  max_iterations : ℕ
  x_min : ℝ
  x_max : ℝ
  y_min : ℝ
  y_max : ℝ
  use_histogram : Bool

/-- The value the computation phase of generate_mandelbrot (ffpga.c lines
536-556) stores for pixel (px, py): the evaluator applied to the pixel's
coordinates, a pure function of the pixel position and the parameters. -/
noncomputable def pixelValue (p : MandelbrotParams) (px py : ℕ) : ℝ :=
  let x_scale := (p.x_max - p.x_min) / ((p.width : ℝ) - 1)
  let y_scale := (p.y_max - p.y_min) / ((p.height : ℝ) - 1)
  calculate_mandelbrot_optimized
    (p.x_min + (px : ℝ) * x_scale) (p.y_min + (py : ℝ) * y_scale) p.max_iterations

/-- Inner loop of the computation phase (ffpga.c lines 546-556): one worker
writes one row of the shared iteration buffer, at indices py * width + px. -/
noncomputable def computeRow (p : MandelbrotParams) (buf : ℕ → ℝ) (py : ℕ) : ℕ → ℝ :=
  (List.range p.width).foldl
    (fun b px => Function.update b (py * p.width + px) (pixelValue p px py)) buf

/-- Scheduler embedding of the parallel computation phase (ffpga.c lines
542-574): the rows of the image are processed in the order the scheduler
hands them out, each row writing only its own slice of the buffer.  A
sequential run processes List.range height; any thread count or chunking
yields some permutation of that list. -/
noncomputable def computeBuffer (p : MandelbrotParams) (order : List ℕ) : ℕ → ℝ :=
  order.foldl (computeRow p) (fun _ => 0)

/-- The iteration buffer as a row-major list, as consumed by build_histogram
and the coloring phase of generate_mandelbrot. -/
noncomputable def iterationData (p : MandelbrotParams) : List ℝ :=
  (List.range p.height).flatMap fun py =>
    (List.range p.width).map fun px => pixelValue p px py

/-- Coloring phase of generate_mandelbrot (ffpga.c lines 601-619): every
pixel is mapped with the histogram mapper when a histogram was built and with
the standard mapper otherwise. -/
noncomputable def colorPhase (data : List ℝ) (max_iter : ℕ) (histogram : Option Histogram) :
    List Color :=
  data.map fun x =>
    match histogram with
    | some h => map_iteration_to_color_histogram x max_iter h
    | none => map_iteration_to_color_standard x max_iter

/-- Embedding of generate_mandelbrot (ffpga.c lines 480-694) as a function of
the render parameters and of the environment events the source reacts to:
success of the two main buffer allocations, success of the histogram
allocation inside build_histogram, and success of the PNG write.  The result
is none exactly when the source returns 0, and carries the final pixel buffer
when the source returns 1. -/
noncomputable def generate_mandelbrot (p : MandelbrotParams)
    (image_alloc_ok iter_alloc_ok hist_alloc_ok write_ok : Bool) :
    Option (List Color) :=
  if ¬image_alloc_ok ∨ ¬iter_alloc_ok then none
  else
    let data := iterationData p
    let histogram :=
      if p.use_histogram ∧ hist_alloc_ok then
        some (build_histogram data p.max_iterations)
      else none
    let image := colorPhase data p.max_iterations histogram
    if write_ok then some image else none

/-- Embedding of atan2(y, x) via the complex argument, matching the C library
function on all inputs a real-number model can distinguish. -/
noncomputable def atan2 (y x : ℝ) : ℝ :=
  Complex.arg (Complex.mk x y)

/-- Embedding of quick_ffpga_check from the legacy variant
(src/C-FFPGA/ffpga.c lines 46-66): a radius-gated polar cardioid test around
-1 and a bulb test around -1.25. -/
noncomputable def quick_ffpga_check (cr ci : ℝ) : Prop :=
  (let x_shifted := cr + 1.0
   let r_sq := x_shifted * x_shifted + ci * ci
   r_sq < 0.0625 ∧
     (let theta := atan2 ci x_shifted
      let cardioid_r := 0.25 * (1.0 - Real.cos theta)
      r_sq < cardioid_r * cardioid_r)) ∨
  (cr + 1.25) * (cr + 1.25) + ci * ci < 0.0625

/-- The fast-rejection tests exactly as worded in the specification (section
4.1): q = (cr - 1/4)² + ci² with the cardioid condition
q·(q + (cr - 1/4)) < ci²/4, and the period-2 bulb condition
(cr + 1)² + ci² < 0.0625.  Stated from the spec's words, for comparison with
the source predicates. -/
noncomputable def specFastRejection (cr ci : ℝ) : Prop :=
  (let q := (cr - 0.25) ^ 2 + ci ^ 2
   q * (q + (cr - 0.25)) < 0.25 * ci ^ 2) ∨
  (cr + 1) ^ 2 + ci ^ 2 < 0.0625

/-- The squared magnitude of a complex value stored as a component pair, as
the source computes it. -/
noncomputable def magSq (z : ℝ × ℝ) : ℝ :=
  z.1 * z.1 + z.2 * z.2

/-- Number of entries of an iteration buffer strictly below the iteration
bound; the quantity the histogram totals are compared against. -/
noncomputable def countBelow (data : List ℝ) (m : ℕ) : ℕ :=
  data.countP fun x => decide (x < (m : ℝ))

section HistogramLemmas

lemma truncInt_nonneg {x : ℝ} (hx : 0 ≤ x) : 0 ≤ truncInt x := by
  rw [truncInt, if_pos hx]
  exact Int.floor_nonneg.mpr hx

lemma truncInt_lt_natCast {x : ℝ} {m : ℕ} (hm : 0 < m) :
    truncInt x < (m : ℤ) ↔ x < (m : ℝ) := by
  by_cases hx : 0 ≤ x
  · rw [truncInt, if_pos hx, Int.floor_lt]
    push_cast
    rfl
  · push_neg at hx
    rw [truncInt, if_neg (not_le.mpr hx)]
    have h1 : 0 ≤ ⌊-x⌋ := Int.floor_nonneg.mpr (by linarith)
    have h2 : (0 : ℝ) < (m : ℝ) := by exact_mod_cast hm
    constructor
    · intro _; linarith
    · intro _; omega

lemma sum_range_update (f : ℤ → ℕ) (m : ℕ) (b : ℤ) (hb0 : 0 ≤ b)
    (hbm : b < (m : ℤ)) :
    ((Finset.range m).sum fun i => Function.update f b (f b + 1) (i : ℤ)) =
      ((Finset.range m).sum fun i => f (i : ℤ)) + 1 := by
  have hk : ((b.toNat : ℕ) : ℤ) = b := Int.toNat_of_nonneg hb0
  have hmem : b.toNat ∈ Finset.range m := Finset.mem_range.mpr (by omega)
  have hfun : (fun i : ℕ => Function.update f b (f b + 1) (i : ℤ)) =
      Function.update (fun i : ℕ => f (i : ℤ)) b.toNat (f b + 1) := by
    funext i
    by_cases hi : i = b.toNat
    · subst hi
      rw [hk, Function.update_same, Function.update_same]
    · have hiz : (i : ℤ) ≠ b := by omega
      rw [Function.update_noteq hiz, Function.update_noteq hi]
  rw [hfun, Finset.sum_update_of_mem hmem,
    Finset.sum_eq_sum_diff_singleton_add hmem, hk]
  ring

lemma hist_foldl_total (m : ℕ) (data : List ℝ) : ∀ h : Histogram,
    (List.foldl (histStep m) h data).total_pixels =
      h.total_pixels + (data.countP fun x => decide (truncInt x < (m : ℤ))) := by
  induction data with
  | nil => intro h; simp
  | cons x xs ih =>
      intro h
      rw [List.foldl_cons, ih, List.countP_cons]
      by_cases hx : truncInt x < (m : ℤ)
      · simp only [histStep, if_pos hx]
        simp [hx]
        omega
      · simp [histStep, hx]

lemma hist_foldl_sum (m : ℕ) (data : List ℝ) (hpos : ∀ x ∈ data, 0 ≤ x) :
    ∀ h : Histogram,
    ((Finset.range m).sum fun b => (List.foldl (histStep m) h data).counts (b : ℤ)) =
      ((Finset.range m).sum fun b => h.counts (b : ℤ)) +
        (data.countP fun x => decide (truncInt x < (m : ℤ))) := by
  induction data with
  | nil => intro h; simp
  | cons x xs ih =>
      intro h
      rw [List.foldl_cons, ih (fun y hy => hpos y (List.mem_cons_of_mem _ hy)),
        List.countP_cons]
      by_cases hx : truncInt x < (m : ℤ)
      · have hb0 : 0 ≤ truncInt x := truncInt_nonneg (hpos x (List.mem_cons_self x xs))
        have hsum : ((Finset.range m).sum fun b => (histStep m h x).counts (b : ℤ)) =
            ((Finset.range m).sum fun b => h.counts (b : ℤ)) + 1 := by
          simp only [histStep, if_pos hx]
          exact sum_range_update h.counts m (truncInt x) hb0 hx
        rw [hsum]
        simp only [hx, decide_eq_true_eq, if_pos]
        omega
      · simp only [histStep, if_neg hx]
        simp [hx]

lemma countP_truncInt_eq_countBelow (data : List ℝ) (m : ℕ) (hm : 0 < m) :
    (data.countP fun x => decide (truncInt x < (m : ℤ))) = countBelow data m := by
  rw [countBelow]
  apply List.countP_congr
  intro x _
  simp only [decide_eq_true_eq]
  exact truncInt_lt_natCast hm

end HistogramLemmas

/-- Claim C4: for every iteration buffer (entries are iteration results, hence
non-negative) and every positive iteration bound, the bucket counts of the
histogram sum to total_pixels, total_pixels is the number of entries strictly
below the bound, and an entry equal to the bound leaves the histogram
untouched. -/
theorem histogram_totals_invariant (data : List ℝ) (m : ℕ) (hm : 0 < m)
    (hpos : ∀ x ∈ data, 0 ≤ x) :
    ((Finset.range m).sum fun b => (build_histogram data m).counts (b : ℤ)) =
        (build_histogram data m).total_pixels ∧
      (build_histogram data m).total_pixels = countBelow data m ∧
      ∀ h : Histogram, histStep m h (m : ℝ) = h := by
  have htot := hist_foldl_total m data
    { counts := fun _ => 0, total_pixels := 0, max_count := 0 }
  have hsum := hist_foldl_sum m data hpos
    { counts := fun _ => 0, total_pixels := 0, max_count := 0 }
  refine ⟨?_, ?_, ?_⟩
  · rw [build_histogram, hsum, htot]
    simp
  · rw [build_histogram, htot, countP_truncInt_eq_countBelow data m hm]
    simp
  · intro h
    have hb : truncInt ((m : ℕ) : ℝ) = (m : ℤ) := by
      rw [truncInt, if_pos (by positivity), Int.floor_natCast]
    rw [histStep]
    simp [hb]

/-- Witness for histogram_totals_invariant at a concrete buffer. -/
theorem histogram_totals_invariant_witness :
    (0 < 3 ∧ ∀ x ∈ [(0.5 : ℝ), 2, 3], 0 ≤ x) ∧
      (((Finset.range 3).sum fun b => (build_histogram [(0.5 : ℝ), 2, 3] 3).counts (b : ℤ)) =
          (build_histogram [(0.5 : ℝ), 2, 3] 3).total_pixels ∧
        (build_histogram [(0.5 : ℝ), 2, 3] 3).total_pixels = countBelow [(0.5 : ℝ), 2, 3] 3 ∧
        ∀ h : Histogram, histStep 3 h ((3 : ℕ) : ℝ) = h) :=
  ⟨⟨by norm_num, by intro x hx; fin_cases hx <;> norm_num⟩,
    histogram_totals_invariant [(0.5 : ℝ), 2, 3] 3 (by norm_num)
      (by intro x hx; fin_cases hx <;> norm_num)⟩

/-- Claim C9: if some buffer entry fails the mapper's set-member guard (so the
histogram color mapper would reach the division by total_pixels for it), then
the histogram built from that same buffer has a non-zero total_pixels: the
division is never by zero. -/
theorem histogram_divisor_positive (data : List ℝ) (m : ℕ) (x : ℝ) (hm : 0 < m)
    (hx : x ∈ data) (hguard : ¬ x ≥ (m : ℝ)) :
    (build_histogram data m).total_pixels ≠ 0 := by
  have htot := hist_foldl_total m data
    { counts := fun _ => 0, total_pixels := 0, max_count := 0 }
  rw [build_histogram, htot]
  have hcount : 0 < data.countP fun y => decide (truncInt y < (m : ℤ)) := by
    rw [List.countP_pos_iff]
    exact ⟨x, hx, by
      simp only [decide_eq_true_eq]
      exact (truncInt_lt_natCast hm).mpr (not_le.mp hguard)⟩
  omega

/-- Witness for histogram_divisor_positive at a concrete buffer. -/
theorem histogram_divisor_positive_witness :
    (0 < 2 ∧ (0.5 : ℝ) ∈ [(0.5 : ℝ), 2] ∧ ¬ (0.5 : ℝ) ≥ ((2 : ℕ) : ℝ)) ∧
      (build_histogram [(0.5 : ℝ), 2] 2).total_pixels ≠ 0 :=
  ⟨⟨by norm_num, by norm_num, by norm_num⟩,
    histogram_divisor_positive [(0.5 : ℝ), 2] 2 0.5 (by norm_num)
      (by norm_num) (by norm_num)⟩

/-- Claim C8: a set-member iteration result, one at or above the iteration
bound, is mapped to pure black by both color-mapping strategies, whatever the
histogram is. -/
theorem set_members_map_to_black (smooth_iter : ℝ) (m : ℕ) (histogram : Histogram)
    (hs : smooth_iter ≥ (m : ℝ)) (hm : 0 < m) :
    map_iteration_to_color_histogram smooth_iter m histogram = ⟨0, 0, 0⟩ ∧
      map_iteration_to_color_standard smooth_iter m = ⟨0, 0, 0⟩ := by
  constructor
  · rw [map_iteration_to_color_histogram, if_pos hs]
  · rw [map_iteration_to_color_standard, if_pos hs]

/-- Witness for set_members_map_to_black at a concrete input. -/
theorem set_members_map_to_black_witness :
    ((5 : ℝ) ≥ ((3 : ℕ) : ℝ) ∧ 0 < 3) ∧
      (map_iteration_to_color_histogram 5 3 (build_histogram [] 3) = ⟨0, 0, 0⟩ ∧
        map_iteration_to_color_standard 5 3 = ⟨0, 0, 0⟩) :=
  ⟨⟨by norm_num, by norm_num⟩,
    set_members_map_to_black 5 3 (build_histogram [] 3) (by norm_num) (by norm_num)⟩

/-- Claim C7 (amended): the fast-rejection predicate of the v2 engine agrees
with the closed-form cardioid and period-2-bulb tests of the specification at
every point. -/
theorem fast_rejection_matches_spec (cr ci : ℝ) :
    quick_mandelbrot_check cr ci ↔ specFastRejection cr ci := by
  rw [quick_mandelbrot_check, specFastRejection]
  constructor
  · rintro (h | h)
    · left; ring_nf; ring_nf at h; convert h using 2
    · right; ring_nf; ring_nf at h; convert h using 2
  · rintro (h | h)
    · left; ring_nf; ring_nf at h; convert h using 2
    · right; ring_nf; ring_nf at h; convert h using 2

/-- Counterexample for claim C7 as stated: the legacy fast-rejection
predicate quick_ffpga_check (src/C-FFPGA/ffpga.c) accepts the point
(-1.3, 0), which the specification's closed-form tests reject. -/
theorem legacy_fast_rejection_differs :
    quick_ffpga_check (-1.3) 0 ∧ ¬ specFastRejection (-1.3) 0 := by
  constructor
  · rw [quick_ffpga_check]
    right
    norm_num
  · rw [specFastRejection]
    rintro (h | h) <;> norm_num at h

section SchedulerLemmas

lemma foldl_update_range (g : ℕ → ℝ) :
    ∀ (n base : ℕ) (buf : ℕ → ℝ) (i : ℕ),
    ((List.range n).foldl (fun b px => Function.update b (base + px) (g px)) buf) i =
      if base ≤ i ∧ i < base + n then g (i - base) else buf i := by
  intro n
  induction n with
  | zero =>
      intro base buf i
      rw [List.range_zero, List.foldl_nil, if_neg (by omega)]
  | succ n ih =>
      intro base buf i
      rw [List.range_succ, List.foldl_append, List.foldl_cons, List.foldl_nil]
      by_cases hi : i = base + n
      · subst hi
        rw [Function.update_same, if_pos (by omega), Nat.add_sub_cancel_left]
      · rw [Function.update_noteq hi, ih]
        by_cases h2 : base ≤ i ∧ i < base + n
        · rw [if_pos h2, if_pos (by omega)]
        · rw [if_neg h2, if_neg (by omega)]

lemma computeBuffer_eval (p : MandelbrotParams) (hw : 0 < p.width) :
    ∀ (order : List ℕ) (buf : ℕ → ℝ) (i : ℕ),
    (order.foldl (computeRow p) buf) i =
      if i / p.width ∈ order then pixelValue p (i % p.width) (i / p.width) else buf i := by
  intro order
  induction order with
  | nil =>
      intro buf i
      rw [List.foldl_nil, if_neg (by simp)]
  | cons py rest ih =>
      intro buf i
      rw [List.foldl_cons, ih]
      have hdm : i / p.width * p.width + i % p.width = i := Nat.div_add_mod' i p.width
      have hmod : i % p.width < p.width := Nat.mod_lt i hw
      by_cases hr : i / p.width ∈ rest
      · rw [if_pos hr, if_pos (List.mem_cons_of_mem _ hr)]
      · rw [if_neg hr, computeRow, foldl_update_range]
        by_cases hp : py = i / p.width
        · subst hp
          rw [if_pos (by constructor <;> omega)]
          have harg : i - i / p.width * p.width = i % p.width := by omega
          rw [harg, if_pos (List.mem_cons_self _ _)]
        · have hmem : i / p.width ∉ py :: rest := by
            simp only [List.mem_cons, not_or]
            exact ⟨fun h => hp h.symm, hr⟩
          have hside : ¬ (py * p.width ≤ i ∧ i < py * p.width + p.width) := by
            rintro ⟨h1, h2⟩
            exact hp (Nat.div_eq_of_lt_le h1 (by rw [Nat.succ_mul]; exact h2)).symm
          rw [if_neg hside, if_neg hmem]

end SchedulerLemmas

/-- Claim C5: the iteration buffer produced by the computation phase does not
depend on how the scheduler orders the rows across threads — any permutation
of the row list (one thread, eight threads, any chunking) produces the same
buffer as the sequential order, and every pixel holds exactly the evaluator's
value at that pixel's coordinates. -/
theorem scheduler_order_independence (p : MandelbrotParams) (order : List ℕ)
    (hw : 0 < p.width) (hperm : order.Perm (List.range p.height)) :
    computeBuffer p order = computeBuffer p (List.range p.height) ∧
      ∀ px py : ℕ, px < p.width → py < p.height →
        computeBuffer p order (py * p.width + px) = pixelValue p px py := by
  constructor
  · funext i
    rw [computeBuffer, computeBuffer, computeBuffer_eval p hw,
      computeBuffer_eval p hw]
    simp only [hperm.mem_iff]
  · intro px py hpx hpy
    rw [computeBuffer, computeBuffer_eval p hw]
    have hdiv : (py * p.width + px) / p.width = py := by
      rw [Nat.add_comm, Nat.add_mul_div_right px py hw, Nat.div_eq_of_lt hpx,
        Nat.zero_add]
    have hmod : (py * p.width + px) % p.width = px := by
      rw [Nat.add_comm, Nat.add_mul_mod_self_right, Nat.mod_eq_of_lt hpx]
    rw [hdiv, hmod,
      if_pos (hperm.mem_iff.mpr (List.mem_range.mpr hpy))]

/-- Witness for scheduler_order_independence on a one-pixel image. -/
theorem scheduler_order_independence_witness :
    (0 < (MandelbrotParams.mk 1 1 1 0 0 0 0 false).width ∧
        List.Perm [0] (List.range (MandelbrotParams.mk 1 1 1 0 0 0 0 false).height)) ∧
      (computeBuffer (MandelbrotParams.mk 1 1 1 0 0 0 0 false) [0] =
          computeBuffer (MandelbrotParams.mk 1 1 1 0 0 0 0 false)
            (List.range (MandelbrotParams.mk 1 1 1 0 0 0 0 false).height) ∧
        ∀ px py : ℕ, px < 1 → py < 1 →
          computeBuffer (MandelbrotParams.mk 1 1 1 0 0 0 0 false) [0] (py * 1 + px) =
            pixelValue (MandelbrotParams.mk 1 1 1 0 0 0 0 false) px py) :=
  ⟨⟨by decide, by decide⟩,
    scheduler_order_independence (MandelbrotParams.mk 1 1 1 0 0 0 0 false) [0]
      (by decide) (by decide)⟩

/-- The iteration buffer list covers the image exactly: width * height
entries. -/
lemma iterationData_length (p : MandelbrotParams) :
    (iterationData p).length = p.width * p.height := by
  rw [iterationData]
  simp [List.length_flatMap, Function.comp_def, Nat.mul_comm]

/-- Claim C10: when histogram coloring is requested but the histogram
allocation fails inside build_histogram, the render does not fail: the
coloring phase silently falls back to the standard mapper for every pixel and
generate_mandelbrot still returns a complete pixel buffer as a success. -/
theorem histogram_alloc_failure_falls_back (p : MandelbrotParams)
    (hh : p.use_histogram = true) :
    generate_mandelbrot p true true false true =
        some ((iterationData p).map fun x =>
          map_iteration_to_color_standard x p.max_iterations) ∧
      ((iterationData p).map fun x =>
          map_iteration_to_color_standard x p.max_iterations).length =
        p.width * p.height := by
  constructor
  · rw [generate_mandelbrot]
    simp [colorPhase]
  · rw [List.length_map, iterationData_length]

/-- Witness for histogram_alloc_failure_falls_back on a one-pixel image. -/
theorem histogram_alloc_failure_falls_back_witness :
    (MandelbrotParams.mk 1 1 1 0 0 0 0 true).use_histogram = true ∧
      (generate_mandelbrot (MandelbrotParams.mk 1 1 1 0 0 0 0 true) true true false true =
          some ((iterationData (MandelbrotParams.mk 1 1 1 0 0 0 0 true)).map fun x =>
            map_iteration_to_color_standard x
              (MandelbrotParams.mk 1 1 1 0 0 0 0 true).max_iterations) ∧
        ((iterationData (MandelbrotParams.mk 1 1 1 0 0 0 0 true)).map fun x =>
            map_iteration_to_color_standard x
              (MandelbrotParams.mk 1 1 1 0 0 0 0 true).max_iterations).length =
          (MandelbrotParams.mk 1 1 1 0 0 0 0 true).width *
            (MandelbrotParams.mk 1 1 1 0 0 0 0 true).height) :=
  ⟨rfl, histogram_alloc_failure_falls_back (MandelbrotParams.mk 1 1 1 0 0 0 0 true) rfl⟩

section SeriesLemmas

lemma seriesSeed_succ (cr ci : ℝ) (n : ℕ) (z dz : ℝ × ℝ) :
    seriesSeed cr ci (n + 1) z dz =
      if z.1 * z.1 + z.2 * z.2 > ESCAPE_RADIUS_SQ then none
      else seriesSeed cr ci n (z.1 * z.1 - z.2 * z.2 + cr, 2 * z.1 * z.2 + ci)
        (2 * (z.1 * dz.1 - z.2 * dz.2) + 1, 2 * (z.1 * dz.2 + z.2 * dz.1)) := rfl

lemma seriesSeed_none_of_escape (cr ci : ℝ) :
    ∀ (n : ℕ) (z dz : ℝ × ℝ),
      (∃ i, i < n ∧ ESCAPE_RADIUS_SQ < magSq ((stepZ cr ci)^[i] z)) →
      seriesSeed cr ci n z dz = none := by
  intro n
  induction n with
  | zero =>
      rintro z dz ⟨i, hi, _⟩
      omega
  | succ n ih =>
      rintro z dz ⟨i, hi, hesc⟩
      rw [seriesSeed_succ]
      by_cases h0 : z.1 * z.1 + z.2 * z.2 > ESCAPE_RADIUS_SQ
      · rw [if_pos h0]
      · rw [if_neg h0]
        apply ih
        cases i with
        | zero => exact absurd hesc (by simpa [magSq] using h0)
        | succ j =>
            refine ⟨j, by omega, ?_⟩
            rw [Function.iterate_succ_apply] at hesc
            exact hesc

lemma series_approximation_some (cr ci : ℝ) (m : ℕ) (v : ℝ)
    (h : series_approximation cr ci m = some v) :
    ∃ est, v = (SERIES_TERMS : ℝ) + est ∧ 0 < est ∧
      est < (m : ℝ) - (SERIES_TERMS : ℝ) := by
  simp only [series_approximation] at h
  split at h
  · exact absurd h (by simp)
  · split at h
    · exact absurd h (by simp)
    · split at h
      · split at h
        · rename_i hcond
          exact ⟨_, (Option.some.inj h).symm, hcond.1, hcond.2⟩
        · exact absurd h (by simp)
      · exact absurd h (by simp)

lemma series_approximation_none_fall_through (cr ci : ℝ) (m : ℕ)
    (hnone : series_approximation cr ci m = none)
    (hq : ¬ quick_mandelbrot_check cr ci) :
    calculate_mandelbrot_optimized cr ci m = escapeTimeSmooth cr ci m := by
  rw [calculate_mandelbrot_optimized, if_neg hq]
  by_cases h10 : MIN_SERIES_ITER ≤ m
  · rw [if_pos h10, hnone]
  · rw [if_neg h10]

end SeriesLemmas

/-- Claim C6: if the point escapes during the seed iterations of the series
approximation, the function returns the failure sentinel and the evaluator
falls through to the full iteration; and every accepted estimate equals
SERIES_TERMS plus a positive estimate below max_iter - SERIES_TERMS, hence is
strictly below max_iter. -/
theorem series_failure_and_acceptance (cr ci : ℝ) (m : ℕ) :
    ((∃ i, i < min SERIES_TERMS (m / 4) ∧
        ESCAPE_RADIUS_SQ < magSq (mandelZ cr ci i)) →
      series_approximation cr ci m = none ∧
        (¬ quick_mandelbrot_check cr ci →
          calculate_mandelbrot_optimized cr ci m = escapeTimeSmooth cr ci m)) ∧
      ∀ v, series_approximation cr ci m = some v →
        ∃ est, v = (SERIES_TERMS : ℝ) + est ∧ 0 < est ∧
          est < (m : ℝ) - (SERIES_TERMS : ℝ) ∧ v < (m : ℝ) := by
  constructor
  · intro hesc
    have hnone : series_approximation cr ci m = none := by
      rw [series_approximation]
      by_cases h10 : m < MIN_SERIES_ITER
      · rw [if_pos h10]
      · rw [if_neg h10,
          seriesSeed_none_of_escape cr ci (min SERIES_TERMS (m / 4)) (0, 0) (1, 0) hesc]
    exact ⟨hnone, series_approximation_none_fall_through cr ci m hnone⟩
  · intro v hv
    obtain ⟨est, hveq, hpos, hlt⟩ := series_approximation_some cr ci m v hv
    exact ⟨est, hveq, hpos, hlt, by rw [hveq]; linarith⟩

/-- Witness for series_failure_and_acceptance: the point (2, 2) escapes in the
second seed pass, so the series approximation fails for it. -/
theorem series_failure_and_acceptance_witness :
    (∃ i, i < min SERIES_TERMS (40 / 4) ∧
        ESCAPE_RADIUS_SQ < magSq (mandelZ 2 2 i)) ∧
      series_approximation 2 2 40 = none := by
  have hesc : ∃ i, i < min SERIES_TERMS (40 / 4) ∧
      ESCAPE_RADIUS_SQ < magSq (mandelZ 2 2 i) := by
    refine ⟨1, by norm_num [SERIES_TERMS], ?_⟩
    rw [mandelZ]
    norm_num [stepZ, magSq, ESCAPE_RADIUS_SQ]
  exact ⟨hesc, ((series_failure_and_acceptance 2 2 40).1 hesc).1⟩

section LoopLemmas

lemma mandelLoop_zero (cr ci zr zi : ℝ) (iter : ℕ) :
    mandelLoop cr ci 0 zr zi iter = (zr, zi, iter) := rfl

lemma mandelLoop_succ (cr ci : ℝ) (fuel : ℕ) (zr zi : ℝ) (iter : ℕ) :
    mandelLoop cr ci (fuel + 1) zr zi iter =
      if zr * zr + zi * zi > BAILOUT_TEST then (zr, zi, iter)
      else mandelLoop cr ci fuel (zr * zr - zi * zi + cr) (2 * zr * zi + ci)
        (iter + 1) := rfl

lemma escapeTimeSmooth_of_no_escape (cr ci : ℝ) (m : ℕ)
    (h : ¬ (mandelFinal cr ci m).2.2 < m) :
    escapeTimeSmooth cr ci m = (m : ℝ) := by
  rw [escapeTimeSmooth, if_neg h]

lemma mandelFinal_two_two (m : ℕ) (hm : 4 ≤ m) :
    mandelFinal 2 2 m = (-94, 42, 3) := by
  obtain ⟨k, rfl⟩ : ∃ k, m = k + 4 := ⟨m - 4, by omega⟩
  rw [mandelFinal,
    show k + 4 = (k + 3) + 1 from rfl, mandelLoop_succ,
    if_neg (by norm_num [BAILOUT_TEST])]
  norm_num
  rw [show k + 3 = (k + 2) + 1 from rfl, mandelLoop_succ,
    if_neg (by norm_num [BAILOUT_TEST])]
  norm_num
  rw [show k + 2 = (k + 1) + 1 from rfl, mandelLoop_succ,
    if_neg (by norm_num [BAILOUT_TEST])]
  norm_num
  rw [mandelLoop_succ, if_pos (by norm_num [BAILOUT_TEST])]

end LoopLemmas

/-- Counterexample for claim C2 as stated: the point (2, 2) does escape for
max_iter = 5, but the loop detects the escape at iteration 3, not at
iteration 1, because the code's bailout threshold is 256 rather than 4. -/
theorem point_two_two_escape_iteration :
    0 < 5 ∧ mandelEscapes 2 2 5 ∧ mandelIterCount 2 2 5 ≠ 1 := by
  have h := mandelFinal_two_two 5 (by norm_num)
  have hc : mandelIterCount 2 2 5 = 3 := by rw [mandelIterCount, h]
  refine ⟨by norm_num, ?_, by rw [hc]; norm_num⟩
  rw [mandelEscapes, hc]
  norm_num

/-- Claim C2 (amended): with the code's bailout of 256, the point (2, 2) is
detected as escaping at iteration 3 for every max_iter at least 4; for
max_iter at most 3 the loop exhausts its budget without detecting escape and
the evaluator returns max_iter, treating the point as a set member. -/
theorem point_two_two_escapes_at_three (m : ℕ) :
    (4 ≤ m → mandelIterCount 2 2 m = 3 ∧ mandelEscapes 2 2 m) ∧
      (m ≤ 3 → calculate_mandelbrot_optimized 2 2 m = (m : ℝ)) := by
  constructor
  · intro hm
    have h := mandelFinal_two_two m hm
    have hc : mandelIterCount 2 2 m = 3 := by rw [mandelIterCount, h]
    exact ⟨hc, by rw [mandelEscapes, hc]; omega⟩
  · intro hm
    have hq : ¬ quick_mandelbrot_check 2 2 := by
      rw [quick_mandelbrot_check]
      rintro (h | h) <;> norm_num at h
    have hiter : mandelIterCount 2 2 m = m := by
      interval_cases m
      · rfl
      · rw [mandelIterCount, mandelFinal, show (1 : ℕ) = 0 + 1 from rfl,
          mandelLoop_succ, if_neg (by norm_num [BAILOUT_TEST]), mandelLoop_zero]
      · rw [mandelIterCount, mandelFinal, show (2 : ℕ) = (0 + 1) + 1 from rfl,
          mandelLoop_succ, if_neg (by norm_num [BAILOUT_TEST]), mandelLoop_succ,
          if_neg (by norm_num [BAILOUT_TEST]), mandelLoop_zero]
      · rw [mandelIterCount, mandelFinal, show (3 : ℕ) = ((0 + 1) + 1) + 1 from rfl,
          mandelLoop_succ, if_neg (by norm_num [BAILOUT_TEST]), mandelLoop_succ,
          if_neg (by norm_num [BAILOUT_TEST]), mandelLoop_succ,
          if_neg (by norm_num [BAILOUT_TEST]), mandelLoop_zero]
    rw [calculate_mandelbrot_optimized, if_neg hq,
      if_neg (by simp only [MIN_SERIES_ITER]; omega)]
    exact escapeTimeSmooth_of_no_escape 2 2 m (by rw [show (mandelFinal 2 2 m).2.2 = mandelIterCount 2 2 m from rfl, hiter]; omega)

/-- Witness for point_two_two_escapes_at_three at max_iter 4 and 3. -/
theorem point_two_two_escapes_at_three_witness :
    (4 ≤ 4 ∧ mandelIterCount 2 2 4 = 3 ∧ mandelEscapes 2 2 4) ∧
      (3 ≤ 3 ∧ calculate_mandelbrot_optimized 2 2 3 = ((3 : ℕ) : ℝ)) :=
  ⟨⟨by norm_num, (point_two_two_escapes_at_three 4).1 (by norm_num)⟩,
    ⟨by norm_num, (point_two_two_escapes_at_three 3).2 (by norm_num)⟩⟩

section EvaluatorBounds

lemma mandelLoop_escape_mag (cr ci : ℝ) :
    ∀ (fuel : ℕ) (zr zi : ℝ) (iter : ℕ),
      (mandelLoop cr ci fuel zr zi iter).2.2 < iter + fuel →
      BAILOUT_TEST <
        (mandelLoop cr ci fuel zr zi iter).1 * (mandelLoop cr ci fuel zr zi iter).1 +
          (mandelLoop cr ci fuel zr zi iter).2.1 * (mandelLoop cr ci fuel zr zi iter).2.1 := by
  intro fuel
  induction fuel with
  | zero =>
      intro zr zi iter h
      rw [mandelLoop_zero] at h
      simp at h
  | succ fuel ih =>
      intro zr zi iter h
      rw [mandelLoop_succ] at h ⊢
      by_cases hb : zr * zr + zi * zi > BAILOUT_TEST
      · rw [if_pos hb] at h ⊢
        simpa using hb
      · rw [if_neg hb] at h ⊢
        exact ih _ _ _ (by omega)

lemma mandelFinal_escape_mag (cr ci : ℝ) (m : ℕ)
    (h : (mandelFinal cr ci m).2.2 < m) :
    BAILOUT_TEST <
      (mandelFinal cr ci m).1 * (mandelFinal cr ci m).1 +
        (mandelFinal cr ci m).2.1 * (mandelFinal cr ci m).2.1 := by
  have h' : (mandelLoop cr ci m 0 0 0).2.2 < 0 + m := by
    rw [Nat.zero_add]; exact h
  exact mandelLoop_escape_mag cr ci m 0 0 0 h'

lemma one_lt_logb_of_bailout (x : ℝ) (hx : BAILOUT_TEST < x) :
    1 < Real.logb 2 (0.5 * Real.log x) := by
  have hx256 : (256 : ℝ) < x := by
    rw [show BAILOUT_TEST = (256 : ℝ) from by norm_num [BAILOUT_TEST]] at hx
    exact hx
  have hx0 : (0 : ℝ) < x := by linarith
  have hexp : Real.exp 4 < 256 := by
    have h1 : Real.exp 1 < 2.7182818286 := Real.exp_one_lt_d9
    have h4 : Real.exp 4 = Real.exp 1 ^ (4 : ℕ) := by
      rw [← Real.exp_nat_mul]; norm_num
    rw [h4]
    calc Real.exp 1 ^ (4 : ℕ) < 2.7182818286 ^ (4 : ℕ) := by gcongr
      _ < 256 := by norm_num
  have hlog4 : (4 : ℝ) < Real.log x := by
    rw [Real.lt_log_iff_exp_lt hx0]
    linarith
  have h2 : (2 : ℝ) < 0.5 * Real.log x := by linarith
  have hlog2 : (0 : ℝ) < Real.log 2 := Real.log_pos one_lt_two
  rw [Real.logb, lt_div_iff₀ hlog2, one_mul]
  exact Real.log_lt_log two_pos h2

lemma escapeTimeSmooth_nonneg (cr ci : ℝ) (m : ℕ) :
    0 ≤ escapeTimeSmooth cr ci m := by
  simp only [escapeTimeSmooth]
  split
  · split
    · next hpos => exact le_of_lt hpos
    · exact le_refl 0
  · exact Nat.cast_nonneg m

lemma escapeTimeSmooth_lt_of_escape (cr ci : ℝ) (m : ℕ) (hm : 0 < m)
    (hesc : (mandelFinal cr ci m).2.2 < m) :
    escapeTimeSmooth cr ci m < (m : ℝ) := by
  have hmag := mandelFinal_escape_mag cr ci m hesc
  have hlogb := one_lt_logb_of_bailout _ hmag
  have hiterlt : (((mandelFinal cr ci m).2.2 : ℕ) : ℝ) < (m : ℝ) := by
    exact_mod_cast hesc
  simp only [escapeTimeSmooth, if_pos hesc]
  split
  · linarith
  · exact_mod_cast hm

lemma escapeTimeSmooth_le (cr ci : ℝ) (m : ℕ) :
    escapeTimeSmooth cr ci m ≤ (m : ℝ) := by
  by_cases hesc : (mandelFinal cr ci m).2.2 < m
  · by_cases hm : 0 < m
    · exact le_of_lt (escapeTimeSmooth_lt_of_escape cr ci m hm hesc)
    · omega
  · rw [escapeTimeSmooth, if_neg hesc]

end EvaluatorBounds

/-- Claim C1 (amended): for every finite input and positive max_iter the
evaluator returns a value in the closed interval from 0 to max_iter; a
returned value of exactly max_iter can only come from the fast-rejection path
or from a full iteration that never escaped; and whenever the full iteration
does escape (and the point was not fast-rejected) the returned value is
strictly below max_iter.  The converse direction of the original claim — that
every never-escaping point yields exactly max_iter — is refuted by
series_accepts_nonescaping_point. -/
theorem evaluator_bounds_and_member_sentinel (cr ci : ℝ) (m : ℕ) (hm : 0 < m) :
    0 ≤ calculate_mandelbrot_optimized cr ci m ∧
      calculate_mandelbrot_optimized cr ci m ≤ (m : ℝ) ∧
      (calculate_mandelbrot_optimized cr ci m = (m : ℝ) →
        quick_mandelbrot_check cr ci ∨ ¬ mandelEscapes cr ci m) ∧
      (¬ quick_mandelbrot_check cr ci → mandelEscapes cr ci m →
        calculate_mandelbrot_optimized cr ci m < (m : ℝ)) := by
  by_cases hq : quick_mandelbrot_check cr ci
  · rw [calculate_mandelbrot_optimized, if_pos hq]
    exact ⟨Nat.cast_nonneg m, le_refl _, fun _ => Or.inl hq,
      fun hnq _ => absurd hq hnq⟩
  · have hsm1 : 0 ≤ escapeTimeSmooth cr ci m := escapeTimeSmooth_nonneg cr ci m
    have hsm2 : escapeTimeSmooth cr ci m ≤ (m : ℝ) := escapeTimeSmooth_le cr ci m
    have hsm3 : escapeTimeSmooth cr ci m = (m : ℝ) → ¬ mandelEscapes cr ci m := by
      intro heq hescape
      have hlt := escapeTimeSmooth_lt_of_escape cr ci m hm hescape
      rw [heq] at hlt
      exact lt_irrefl _ hlt
    have hsm4 : mandelEscapes cr ci m → escapeTimeSmooth cr ci m < (m : ℝ) :=
      fun hescape => escapeTimeSmooth_lt_of_escape cr ci m hm hescape
    rw [calculate_mandelbrot_optimized, if_neg hq]
    by_cases h10 : MIN_SERIES_ITER ≤ m
    · rw [if_pos h10]
      cases hs : series_approximation cr ci m with
      | none =>
          simp only []
          exact ⟨hsm1, hsm2, fun he => Or.inr (hsm3 he), fun _ he => hsm4 he⟩
      | some v =>
          obtain ⟨est, hveq, hpos, hlt⟩ := series_approximation_some cr ci m v hs
          have hST : ((SERIES_TERMS : ℕ) : ℝ) = 8 := by norm_num [SERIES_TERMS]
          have hv0 : v > 0 := by rw [hveq, hST]; linarith
          have hvm : v < (m : ℝ) := by rw [hveq]; linarith
          simp only []
          rw [if_pos hv0]
          exact ⟨le_of_lt hv0, le_of_lt hvm, fun he => absurd he (ne_of_lt hvm),
            fun _ _ => hvm⟩
    · rw [if_neg h10]
      exact ⟨hsm1, hsm2, fun he => Or.inr (hsm3 he), fun _ he => hsm4 he⟩

/-- Witness for evaluator_bounds_and_member_sentinel at the origin. -/
theorem evaluator_bounds_and_member_sentinel_witness :
    0 < 1 ∧
      (0 ≤ calculate_mandelbrot_optimized 0 0 1 ∧
        calculate_mandelbrot_optimized 0 0 1 ≤ ((1 : ℕ) : ℝ) ∧
        (calculate_mandelbrot_optimized 0 0 1 = ((1 : ℕ) : ℝ) →
          quick_mandelbrot_check 0 0 ∨ ¬ mandelEscapes 0 0 1) ∧
        (¬ quick_mandelbrot_check 0 0 → mandelEscapes 0 0 1 →
          calculate_mandelbrot_optimized 0 0 1 < ((1 : ℕ) : ℝ))) :=
  ⟨by norm_num, evaluator_bounds_and_member_sentinel 0 0 1 (by norm_num)⟩

section NonEscapingSeriesAcceptance

lemma loopCycle_zero_one :
    ∀ (f i : ℕ), (mandelLoop 0 1 f (-1) 1 i).2.2 = i + f ∧
      (mandelLoop 0 1 f 0 (-1) i).2.2 = i + f := by
  intro f
  induction f with
  | zero => intro i; exact ⟨rfl, rfl⟩
  | succ f ih =>
      intro i
      constructor
      · rw [mandelLoop_succ, if_neg (by norm_num [BAILOUT_TEST])]
        norm_num
        rw [(ih (i + 1)).2]
        omega
      · rw [mandelLoop_succ, if_neg (by norm_num [BAILOUT_TEST])]
        norm_num
        rw [(ih (i + 1)).1]
        omega

lemma nonescape_zero_one : mandelIterCount 0 1 32 = 32 := by
  rw [mandelIterCount, mandelFinal,
    show (32 : ℕ) = 31 + 1 from rfl, mandelLoop_succ,
    if_neg (by norm_num [BAILOUT_TEST])]
  norm_num
  rw [show (31 : ℕ) = 30 + 1 from rfl, mandelLoop_succ,
    if_neg (by norm_num [BAILOUT_TEST])]
  norm_num
  rw [(loopCycle_zero_one 30 2).1]

lemma seed_zero_one :
    seriesSeed 0 1 8 (0, 0) (1, 0) = some ((-1, 1), (-307, -102)) := by
  rw [show (8 : ℕ) = 7 + 1 from rfl, seriesSeed_succ,
    if_neg (by norm_num [ESCAPE_RADIUS_SQ])]
  norm_num
  rw [show (7 : ℕ) = 6 + 1 from rfl, seriesSeed_succ,
    if_neg (by norm_num [ESCAPE_RADIUS_SQ])]
  norm_num
  rw [show (6 : ℕ) = 5 + 1 from rfl, seriesSeed_succ,
    if_neg (by norm_num [ESCAPE_RADIUS_SQ])]
  norm_num
  rw [show (5 : ℕ) = 4 + 1 from rfl, seriesSeed_succ,
    if_neg (by norm_num [ESCAPE_RADIUS_SQ])]
  norm_num
  rw [show (4 : ℕ) = 3 + 1 from rfl, seriesSeed_succ,
    if_neg (by norm_num [ESCAPE_RADIUS_SQ])]
  norm_num
  rw [show (3 : ℕ) = 2 + 1 from rfl, seriesSeed_succ,
    if_neg (by norm_num [ESCAPE_RADIUS_SQ])]
  norm_num
  rw [show (2 : ℕ) = 1 + 1 from rfl, seriesSeed_succ,
    if_neg (by norm_num [ESCAPE_RADIUS_SQ])]
  norm_num
  rw [show (1 : ℕ) = 0 + 1 from rfl, seriesSeed_succ,
    if_neg (by norm_num [ESCAPE_RADIUS_SQ])]
  norm_num
  rfl

lemma series_zero_one :
    ∃ est, series_approximation 0 1 32 = some (8 + est) ∧ 0 < est ∧ est < 1 := by
  rw [series_approximation, if_neg (by norm_num [MIN_SERIES_ITER]),
    show min SERIES_TERMS (32 / 4) = 8 from by norm_num [SERIES_TERMS],
    seed_zero_one]
  have hm1 : ((-307 : ℝ)) * (-307) + (-102) * (-102) = 104653 := by norm_num
  have hm2 : ((-1 : ℝ)) * (-1) + 1 * 1 = 2 := by norm_num
  simp only [hm1, hm2]
  have hsqrtB : (1 : ℝ) ≤ Real.sqrt 104653 := by
    rw [show (1 : ℝ) = Real.sqrt 1 from Real.sqrt_one.symm]
    exact Real.sqrt_le_sqrt (by norm_num)
  have hl2 : (0 : ℝ) < Real.log 2 := Real.log_pos (by norm_num)
  have hlB : (0 : ℝ) < Real.log 104653 := Real.log_pos (by norm_num)
  have hllt : Real.log 2 < Real.log 104653 := Real.log_lt_log (by norm_num) (by norm_num)
  have hest_eq :
      Real.log (ESCAPE_RADIUS / Real.sqrt 2) / Real.log (Real.sqrt 104653) =
        Real.log 2 / Real.log 104653 := by
    rw [show ESCAPE_RADIUS = (2 : ℝ) from by norm_num [ESCAPE_RADIUS],
      Real.div_sqrt, Real.log_sqrt (by norm_num), Real.log_sqrt (by norm_num)]
    rw [div_div_div_cancel_right₀]
    exact two_ne_zero
  have hestpos : 0 < Real.log 2 / Real.log 104653 := div_pos hl2 hlB
  have hestlt1 : Real.log 2 / Real.log 104653 < 1 := (div_lt_one hlB).mpr hllt
  refine ⟨Real.log 2 / Real.log 104653, ?_, hestpos, hestlt1⟩
  rw [if_pos (by linarith [show (1e-10 : ℝ) < 1 from by norm_num] :
      Real.sqrt 104653 > 1e-10)]
  rw [hest_eq]
  rw [if_pos ⟨hestpos, by push_cast [SERIES_TERMS]; linarith⟩]
  norm_num [SERIES_TERMS]

end NonEscapingSeriesAcceptance

/-- Counterexample for claim C1 as stated: the point (0, 1) is not
fast-rejected and its full iteration never escapes within 32 iterations, yet
the evaluator does not return 32 for it — the series approximation accepts a
small estimate for this in-set point. -/
theorem series_accepts_nonescaping_point :
    0 < 32 ∧ ¬ mandelEscapes 0 1 32 ∧
      calculate_mandelbrot_optimized 0 1 32 ≠ ((32 : ℕ) : ℝ) := by
  obtain ⟨est, hser, hpos, hlt1⟩ := series_zero_one
  have hq : ¬ quick_mandelbrot_check 0 1 := by
    rw [quick_mandelbrot_check]
    rintro (h | h) <;> norm_num at h
  have hcalc : calculate_mandelbrot_optimized 0 1 32 = 8 + est := by
    rw [calculate_mandelbrot_optimized, if_neg hq,
      if_pos (by norm_num [MIN_SERIES_ITER]), hser]
    simp only []
    rw [if_pos (by linarith)]
  refine ⟨by norm_num, ?_, ?_⟩
  · rw [mandelEscapes, nonescape_zero_one]
    omega
  · rw [hcalc, show (((32 : ℕ)) : ℝ) = 32 from by norm_num]
    exact ne_of_lt (by linarith)

end FFPGA
